import Mathlib

/-!
# Verification of the genkit-anthropic translation adapter

Shallow embedding of the content codec of the repository (`anthropic/uri.go`),
model catalog (`anthropic/model.go`), and — where the repository code is
absent from the sources at hand and only its tests or the specification
describe it — spec-modelled definitions of the plugin lifecycle guard and
the streaming response assembler.

Go strings are embedded as `List Char`; Go byte slices as `List Nat` with
every byte below 256.
-/

/-! ## Go string primitives (strings.Split, strings.SplitN with n = 2) -/

/-- Embeds Go `strings.Split(s, string(sep))` for a one-character separator:
splits on every occurrence, `Split("", sep) = [""]`. -/
def splitOnChar (sep : Char) : List Char → List (List Char)
  | [] => [[]]
  | c :: rest =>
    if c = sep then [] :: splitOnChar sep rest
    else
      match splitOnChar sep rest with
      | [] => [[c]]
      | h :: t => (c :: h) :: t

/-- Embeds Go `strings.SplitN(s, string(sep), 2)`: split at the first
occurrence of `sep` only, returning one or two pieces. -/
def splitN2 (sep : Char) : List Char → List (List Char)
  | [] => [[]]
  | c :: rest =>
    if c = sep then [[], rest]
    else
      match splitN2 sep rest with
      | [a] => [c :: a]
      | [a, b] => [c :: a, b]
      | _ => []

/-! ## Standard base64 (Go `encoding/base64` StdEncoding)

`sextetChar`/`sextetVal` are the alphabet tables; `b64EncodeList` is
`EncodeToString` over byte lists; `b64DecodeQuanta` processes 4-symbol
quanta with the padding rules of Go (padding mandatory, `=` only at the end,
non-canonical trailing bits accepted); `b64DecodeString` first drops the
`\r`/`\n` characters that the Go decoder ignores. -/

/-- The standard base64 alphabet, sextet value to character. -/
def sextetChar (n : Nat) : Char :=
  if n < 26 then Char.ofNat (65 + n)
  else if n < 52 then Char.ofNat (97 + (n - 26))
  else if n < 62 then Char.ofNat (48 + (n - 52))
  else if n = 62 then '+'
  else '/'

/-- The standard base64 alphabet, character to sextet value; `none` for a
character outside the alphabet (this is how Go reports CorruptInputError). -/
def sextetVal (c : Char) : Option Nat :=
  if 'A' ≤ c ∧ c ≤ 'Z' then some (c.toNat - 65)
  else if 'a' ≤ c ∧ c ≤ 'z' then some (c.toNat - 97 + 26)
  else if '0' ≤ c ∧ c ≤ '9' then some (c.toNat - 48 + 52)
  else if c = '+' then some 62
  else if c = '/' then some 63
  else none

/-- Embeds Go `base64.StdEncoding.EncodeToString`: three input bytes become
four alphabet characters, a short final group is padded with `=`. -/
def b64EncodeList : List Nat → List Char
  | [] => []
  | [a] => [sextetChar (a / 4), sextetChar (a % 4 * 16), '=', '=']
  | [a, b] =>
      [sextetChar (a / 4), sextetChar (a % 4 * 16 + b / 16),
       sextetChar (b % 16 * 4), '=']
  | a :: b :: c :: rest =>
      sextetChar (a / 4) :: sextetChar (a % 4 * 16 + b / 16) ::
      sextetChar (b % 16 * 4 + c / 64) :: sextetChar (c % 64) ::
      b64EncodeList rest

/-- Decodes a newline-free character list four symbols at a time, following
the StdEncoding rules of Go: the length must be a multiple of four, `=` may only
appear as final padding (`xx==` or `xxx=`), nothing may follow a padded
quantum, and non-canonical trailing bits are accepted. -/
def b64DecodeQuanta : List Char → Option (List Nat)
  | [] => some []
  | c1 :: c2 :: c3 :: c4 :: rest =>
      match sextetVal c1, sextetVal c2 with
      | some v1, some v2 =>
        if c3 = '=' then
          if c4 = '=' ∧ rest = [] then some [v1 * 4 + v2 / 16] else none
        else
          match sextetVal c3 with
          | some v3 =>
            if c4 = '=' then
              if rest = [] then some [v1 * 4 + v2 / 16, v2 % 16 * 16 + v3 / 4]
              else none
            else
              match sextetVal c4, b64DecodeQuanta rest with
              | some v4, some tail =>
                  some ((v1 * 4 + v2 / 16) :: (v2 % 16 * 16 + v3 / 4) ::
                        (v3 % 4 * 64 + v4) :: tail)
              | _, _ => none
          | none => none
      | _, _ => none
  | _ => none

/-- Embeds Go `base64.StdEncoding.DecodeString`: the decoder skips carriage
returns and newlines, then consumes 4-symbol quanta. -/
def b64DecodeString (s : List Char) : Option (List Nat) :=
  b64DecodeQuanta (s.filter (fun c => ¬ (c = '\r' ∨ c = '\n')))

/-! ## UTF-8 bytes of a string (Go `[]byte(s)`) -/

/-- The UTF-8 encoding of one character as a byte list (Go strings are UTF-8,
so `[]byte(s)` concatenates these). -/
def utf8EncodeCharNat (c : Char) : List Nat :=
  let n := c.toNat
  if n < 128 then [n]
  else if n < 2048 then [192 + n / 64, 128 + n % 64]
  else if n < 65536 then [224 + n / 4096, 128 + n / 64 % 64, 128 + n % 64]
  else [240 + n / 262144, 128 + n / 4096 % 64, 128 + n / 64 % 64, 128 + n % 64]

/-- Embeds Go `[]byte(s)`: the UTF-8 bytes of a string. -/
def utf8Bytes (s : List Char) : List Nat :=
  s.flatMap utf8EncodeCharNat

/-! ## The `ai.Part` data model and the `Data` extractor (`anthropic/uri.go`) -/

/-- The tag of a genkit `ai.Part`: which variant field is populated.
`p.IsMedia()` is `kind = media`, `p.IsData()` is `kind = data`. -/
inductive PartKind
  | text
  | media
  | data
  | toolRequest
  | toolResponse
deriving DecidableEq, Repr

/-- Embeds the fields of `ai.Part` that `Data` reads: the kind tag, the
declared `ContentType`, and the `Text` payload. -/
structure AiPart where
  kind : PartKind
  contentType : List Char
  text : List Char
deriving DecidableEq, Repr

/-- The three failure modes of `Data`, named as the specification names
them: `invalid data URI format` is `malformedDataURI`, `failed to decode
base64 data` is `invalidBase64`, `unsupported part type for data
extraction` is `unsupportedPartType`. -/
inductive DataError
  | malformedDataURI
  | invalidBase64
  | unsupportedPartType
deriving DecidableEq, Repr

/-- The Go triple `(contentType string, data []byte, err error)` returned by
`Data`; every `return "", nil, err` becomes `⟨[], [], some e⟩`. -/
structure DataResult where
  contentType : List Char
  data : List Nat
  err : Option DataError
deriving DecidableEq, Repr

/-- The branch of `Data` shared verbatim by the media and data cases of
`anthropic/uri.go`: default the declared content type to
`application/octet-stream`, then either parse a `data:` URI (overwriting the
content type with the first `;`-segment before the first comma, decoding the
payload as base64 when a later segment is the literal `base64`, otherwise
taking its raw bytes) or treat the whole text as bare base64. -/
def extractData (declaredCT text : List Char) : DataResult :=
  let contentType :=
    if declaredCT = [] then String.toList "application/octet-stream"
    else declaredCT
  if (String.toList "data:").isPrefixOf text then
    match splitN2 ',' (text.drop 5) with
    | [p0, p1] =>
        let mediaTypeParts := splitOnChar ';' p0
        let ct := mediaTypeParts.headD []
        let isBase64 := (mediaTypeParts.drop 1).any (fun s => s = String.toList "base64")
        if isBase64 then
          match b64DecodeString p1 with
          | some bytes => ⟨ct, bytes, none⟩
          | none => ⟨[], [], some .invalidBase64⟩
        else ⟨ct, utf8Bytes p1, none⟩
    | _ => ⟨[], [], some .malformedDataURI⟩
  else
    match b64DecodeString text with
    | some bytes => ⟨contentType, bytes, none⟩
    | none => ⟨[], [], some .invalidBase64⟩

/-- Embeds `Data` of `anthropic/uri.go`: media parts and data parts run the
identical extraction on their `ContentType`/`Text` fields; every other part
kind fails with `unsupported part type`. -/
def Data (p : AiPart) : DataResult :=
  if p.kind = .media then extractData p.contentType p.text
  else if p.kind = .data then extractData p.contentType p.text
  else ⟨[], [], some .unsupportedPartType⟩

/-- Modelled from the spec: the encode direction of the Content Codec
(`data:<contentType>;base64,<b64>`) is described in §4.1 of the
specification but its source is not among the files at hand. -/
def encodeDataURI (contentType : List Char) (bytes : List Nat) : List Char :=
  String.toList "data:" ++ contentType ++ String.toList ";base64," ++
    b64EncodeList bytes

/-! ## The model catalog (`anthropic/model.go`) -/

/-- Embeds `ai.ModelSupports` as used by `anthropic/model.go`. -/
structure ModelSupports where
  multiturn : Bool
  tools : Bool
  systemRole : Bool
  media : Bool
deriving DecidableEq, Repr

/-- Embeds the `Multimodal` capability record of `anthropic/model.go`. -/
def Multimodal : ModelSupports :=
  { multiturn := true, tools := true, systemRole := true, media := true }

/-- Embeds the fields of `ai.ModelInfo` populated by `anthropic/model.go`. -/
structure ModelInfo where
  label : List Char
  supports : ModelSupports
  versions : List (List Char)
deriving DecidableEq, Repr

/-- Embeds the `anthropicModels` map of `anthropic/model.go` as an
association list (Go map iteration order is irrelevant to lookup). -/
def anthropicModels : List (List Char × ModelInfo) :=
  [ (String.toList "claude-3-5-sonnet-v2",
      ⟨String.toList "Anthropic Claude 3.5 Sonnet v2", Multimodal,
        [String.toList "claude-3-5-sonnet-latest"]⟩),
    (String.toList "claude-3-5-sonnet",
      ⟨String.toList "Anthropic Claude 3.5 Sonnet", Multimodal,
        [String.toList "claude-3-5-sonnet-20240620"]⟩),
    (String.toList "claude-3-haiku",
      ⟨String.toList "Anthropic Claude 3 Haiku", Multimodal,
        [String.toList "claude-3-haiku-20240307"]⟩),
    (String.toList "claude-3-5-haiku",
      ⟨String.toList "Anthropic Claude 3.5 Haiku", Multimodal,
        [String.toList "claude-3-5-haiku-latest"]⟩),
    (String.toList "claude-3-7-sonnet",
      ⟨String.toList "Anthropic Claude 3.7 Sonnet", Multimodal,
        [String.toList "claude-3-7-sonnet-latest"]⟩),
    (String.toList "claude-opus-4",
      ⟨String.toList "Anthropic Claude Opus 4", Multimodal,
        [String.toList "claude-opus-4-20250514"]⟩),
    (String.toList "claude-sonnet-4",
      ⟨String.toList "Anthropic Claude Sonnet 4", Multimodal,
        [String.toList "claude-sonnet-4-20250514"]⟩) ]

/-- Go map lookup `anthropicModels[name]`. -/
def lookupModel (name : List Char) : Option ModelInfo :=
  (anthropicModels.find? (fun e => e.1 == name)).map (fun e => e.2)

/-- Translation-time failures named by the specification. -/
inductive TranslateError
  | unknownModel
deriving DecidableEq, Repr

/-- A provider wire request: the resolved version string plus the translated
request payload (kept opaque, since only model resolution is at issue). -/
structure WireRequest where
  model : List Char
  payload : List (List Char)
deriving DecidableEq, Repr

/-- Modelled from the spec: model identifier resolution (§4.2; the
`DefineModel`/translator source is not among the files at hand, only its
catalog and tests are). A logical name resolves through the static catalog
to the version string of the entry; a missing key fails with `UnknownModel`. -/
def resolveModel (name : List Char) : Except TranslateError (List Char) :=
  match lookupModel name with
  | some info => .ok (info.versions.headD [])
  | none => .error .unknownModel

/-- Modelled from the spec: the translate operation resolves the model name
first and performs the rest of the (pure, network-free) translation only on
success, so an unresolvable name fails before any further work. -/
def translateRequest (name : List Char) (req : List (List Char)) :
    Except TranslateError WireRequest :=
  match resolveModel name with
  | .ok v => .ok ⟨v, req⟩
  | .error e => .error e

/-! ## The plugin lifecycle guard (test `TestAnthropicSDK_Init`) -/

/-- The two lifecycle states of the plugin-initialization contract. -/
inductive LifecycleState
  | uninitialized
  | ready
deriving DecidableEq, Repr

/-- The plugin instance: its lifecycle state and configured API key. -/
structure AnthropicPlugin where
  state : LifecycleState
  apiKey : List Char
deriving DecidableEq, Repr

/-- Initialization failures: a second `Init` on the same instance, or an
empty API key (both demanded by `TestAnthropicSDK_Init`). -/
inductive InitError
  | alreadyInitialized
  | missingAPIKey
deriving DecidableEq, Repr

/-- Modelled from the spec: the one-shot "initialize once" guard (§9 design
notes and `TestAnthropicSDK_Init`; the `Init` source of the plugin is not among
the files at hand). A `ready` instance refuses re-initialization; an
`uninitialized` instance with a non-empty key becomes `ready`. -/
def initPlugin (p : AnthropicPlugin) : Except InitError AnthropicPlugin :=
  match p.state with
  | .ready => .error .alreadyInitialized
  | .uninitialized =>
      if p.apiKey = [] then .error .missingAPIKey
      else .ok ⟨.ready, p.apiKey⟩

/-! ## The streaming response assembler (spec §4.3)

The source of the assembler is not among the files at hand; the event-folding
state machine below is modelled from the specification. The JSON validity
predicate is kept abstract (a parameter standing for Go `json.Unmarshal`
succeeding on the concatenated fragments); every theorem below holds for
every such predicate. -/

/-- The canonical finish reasons. -/
inductive FinishReason
  | stop
  | length
  | toolCall
  | contentFilter
  | other
deriving DecidableEq, Repr

/-- Modelled from the spec: provider streaming events — start-of-part
(typed text or tool-call), delta, stop-of-part, and the terminal
message-stop carrying the finish reason. -/
inductive StreamEvent
  | startText (idx : Nat)
  | startTool (idx : Nat) (name : List Char)
  | deltaText (idx : Nat) (frag : List Char)
  | deltaTool (idx : Nat) (frag : List Char)
  | stopPart (idx : Nat)
  | messageStop (finish : FinishReason)
deriving DecidableEq, Repr

/-- An in-progress accumulator slot, typed at start-of-part. -/
inductive Slot
  | text (content : List Char)
  | tool (name : List Char) (args : List Char)
deriving DecidableEq, Repr

/-- A frozen output Content Part of the canonical response. -/
inductive RespPart
  | text (content : List Char)
  | toolCall (name : List Char) (args : List Char)
deriving DecidableEq, Repr

/-- Assembly-time failures named by the specification. -/
inductive AsmError
  | unexpectedDelta
  | incompleteStream
  | malformedToolArguments
deriving DecidableEq, Repr

/-- The mutable accumulator of the assembler: open slots keyed by index, frozen
parts keyed by index, and whether some tool part failed JSON parsing at its
finalization. -/
structure Accum where
  slots : List (Nat × Slot)
  parts : List (Nat × RespPart)
  badTool : Bool
deriving DecidableEq, Repr

/-- A canonical streamed response: output parts in index order plus the
finish reason. -/
structure AsmResponse where
  parts : List RespPart
  finish : FinishReason
deriving DecidableEq, Repr

/-- The outcome of one assembly: an optional response and an optional
surfaced error (`MalformedToolArguments` is the one case where both are
populated, per §7). -/
structure AsmOutcome where
  resp : Option AsmResponse
  err : Option AsmError
deriving DecidableEq, Repr

/-- The open slot allocated for `idx`, if any. -/
def lookupSlot (idx : Nat) (slots : List (Nat × Slot)) : Option Slot :=
  (slots.find? (fun e => e.1 == idx)).map (fun e => e.2)

/-- Replaces the slot stored for `idx`. -/
def setSlot (idx : Nat) (s : Slot) : List (Nat × Slot) → List (Nat × Slot)
  | [] => []
  | e :: rest => if e.1 == idx then (idx, s) :: rest else e :: setSlot idx s rest

/-- Discards the slot stored for `idx`. -/
def removeSlot (idx : Nat) (slots : List (Nat × Slot)) : List (Nat × Slot) :=
  slots.filter (fun e => ¬ e.1 = idx)

/-- Sorts the frozen parts into index order (index order, not arrival
order, determines the final ordering, §4.3). -/
def sortByIdx (l : List (Nat × RespPart)) : List (Nat × RespPart) :=
  l.insertionSort (fun a b => a.1 ≤ b.1)

/-- Modelled from the spec: one streaming assembly pass (§4.3). Start
events allocate a typed slot; deltas append their fragment to the slot of
their index (no slot, or a slot of the other kind, is a protocol violation
aborting with `UnexpectedDelta`); stop-of-part freezes the slot into a
part at its index — a tool part whose concatenated argument string fails
`jsonOk` marks the response degraded; message-stop finalizes (events after
it are ignored), forcing the finish reason to `other` and surfacing
`MalformedToolArguments` when a tool part was degraded; end of stream
before message-stop fails with `IncompleteStream`. -/
def runEvents (jsonOk : List Char → Bool) (acc : Accum) :
    List StreamEvent → AsmOutcome
  | [] => ⟨none, some .incompleteStream⟩
  | .startText idx :: rest =>
      runEvents jsonOk ⟨(idx, .text []) :: acc.slots, acc.parts, acc.badTool⟩ rest
  | .startTool idx name :: rest =>
      runEvents jsonOk ⟨(idx, .tool name []) :: acc.slots, acc.parts, acc.badTool⟩ rest
  | .deltaText idx frag :: rest =>
      match lookupSlot idx acc.slots with
      | some (.text s) =>
          runEvents jsonOk
            ⟨setSlot idx (.text (s ++ frag)) acc.slots, acc.parts, acc.badTool⟩ rest
      | _ => ⟨none, some .unexpectedDelta⟩
  | .deltaTool idx frag :: rest =>
      match lookupSlot idx acc.slots with
      | some (.tool name args) =>
          runEvents jsonOk
            ⟨setSlot idx (.tool name (args ++ frag)) acc.slots, acc.parts, acc.badTool⟩ rest
      | _ => ⟨none, some .unexpectedDelta⟩
  | .stopPart idx :: rest =>
      match lookupSlot idx acc.slots with
      | some (.text s) =>
          runEvents jsonOk
            ⟨removeSlot idx acc.slots, (idx, .text s) :: acc.parts, acc.badTool⟩ rest
      | some (.tool name args) =>
          runEvents jsonOk
            ⟨removeSlot idx acc.slots, (idx, .toolCall name args) :: acc.parts,
              acc.badTool || ! jsonOk args⟩ rest
      | none => ⟨none, some .unexpectedDelta⟩
  | .messageStop fin :: _ =>
      ⟨some ⟨(sortByIdx acc.parts).map (fun e => e.2),
             if acc.badTool then .other else fin⟩,
       if acc.badTool then some .malformedToolArguments else none⟩

/-- Modelled from the spec: assemble one streamed response from an ordered
event sequence, starting from the empty accumulator. -/
def assemble (jsonOk : List Char → Bool) (events : List StreamEvent) : AsmOutcome :=
  runEvents jsonOk ⟨[], [], false⟩ events

/-! ## A concrete JSON syntax checker

Used only to instantiate the abstract validity predicate of the assembler in
concrete witnesses; the assembler theorems are parametric in the predicate. -/

/-- Skips JSON whitespace. -/
def skipWS : List Char → List Char
  | c :: rest =>
      if c = ' ' ∨ c = '\t' ∨ c = '\n' ∨ c = '\r' then skipWS rest else c :: rest
  | [] => []

/-- Consumes a JSON string body after its opening quote; a backslash
escapes the following character. -/
def jsonStringTail : List Char → Option (List Char)
  | [] => none
  | '"' :: rest => some rest
  | '\\' :: _ :: rest => jsonStringTail rest
  | _ :: rest => jsonStringTail rest

/-- Consumes a JSON number at the head of `s`. -/
def jsonNumberTail (s : List Char) : Option (List Char) :=
  let s1 := match s with
    | '-' :: rest => rest
    | _ => s
  let intPart := s1.span Char.isDigit
  if intPart.1 = [] then none
  else
    let afterFrac : Option (List Char) :=
      match intPart.2 with
      | '.' :: r =>
          let fracPart := r.span Char.isDigit
          if fracPart.1 = [] then none else some fracPart.2
      | r => some r
    match afterFrac with
    | none => none
    | some s4 =>
      match s4 with
      | 'e' :: r | 'E' :: r =>
          let r1 := match r with
            | '+' :: r2 => r2
            | '-' :: r2 => r2
            | r2 => r2
          let expPart := r1.span Char.isDigit
          if expPart.1 = [] then none else some expPart.2
      | r => some r

mutual

/-- Consumes one JSON value, returning the unconsumed remainder; the fuel
bounds the recursion (one unit is spent per nesting level and per
aggregate member, each of which consumes input). -/
def jsonValueTail : Nat → List Char → Option (List Char)
  | 0, _ => none
  | fuel + 1, s =>
    match skipWS s with
    | '"' :: rest => jsonStringTail rest
    | '{' :: rest =>
        (match skipWS rest with
         | '}' :: r => some r
         | r => jsonMembersTail fuel r)
    | '[' :: rest =>
        (match skipWS rest with
         | ']' :: r => some r
         | r => jsonItemsTail fuel r)
    | 't' :: 'r' :: 'u' :: 'e' :: rest => some rest
    | 'f' :: 'a' :: 'l' :: 's' :: 'e' :: rest => some rest
    | 'n' :: 'u' :: 'l' :: 'l' :: rest => some rest
    | r => jsonNumberTail r

/-- Consumes the members of a JSON object after its opening brace,
including the closing brace. -/
def jsonMembersTail : Nat → List Char → Option (List Char)
  | 0, _ => none
  | fuel + 1, s =>
    match skipWS s with
    | '"' :: rest =>
      (match jsonStringTail rest with
       | none => none
       | some r1 =>
         match skipWS r1 with
         | ':' :: r2 =>
           (match jsonValueTail fuel r2 with
            | none => none
            | some r3 =>
              match skipWS r3 with
              | ',' :: r4 => jsonMembersTail fuel r4
              | '}' :: r4 => some r4
              | _ => none)
         | _ => none)
    | _ => none

/-- Consumes the items of a JSON array after its opening bracket,
including the closing bracket. -/
def jsonItemsTail : Nat → List Char → Option (List Char)
  | 0, _ => none
  | fuel + 1, s =>
    match jsonValueTail fuel s with
    | none => none
    | some r =>
      match skipWS r with
      | ',' :: r2 => jsonItemsTail fuel r2
      | ']' :: r2 => some r2
      | _ => none

end

/-- JSON syntax validity: exactly one JSON value, up to whitespace. -/
def jsonSyntaxOk (s : List Char) : Bool :=
  match jsonValueTail (s.length + 1) s with
  | some r => skipWS r = []
  | none => false

/-! ## Helper lemmas on the string primitives -/

/-- `SplitN(s, sep, 2)` on a separator-free string returns that string. -/
theorem splitN2_not_mem (sep : Char) (l : List Char) (h : sep ∉ l) :
    splitN2 sep l = [l] := by
  induction l with
  | nil => rfl
  | cons c rest ih =>
      have hc : ¬ c = sep := fun hh => h (hh ▸ List.mem_cons_self c rest)
      have hr : sep ∉ rest := fun hh => h (List.mem_cons_of_mem c hh)
      simp only [splitN2, if_neg hc, ih hr]

/-- `SplitN(s, sep, 2)` splits at the first separator occurrence. -/
theorem splitN2_append (sep : Char) (l₁ l₂ : List Char) (h : sep ∉ l₁) :
    splitN2 sep (l₁ ++ sep :: l₂) = [l₁, l₂] := by
  induction l₁ with
  | nil => simp [splitN2]
  | cons c rest ih =>
      have hc : ¬ c = sep := fun hh => h (hh ▸ List.mem_cons_self c rest)
      have hr : sep ∉ rest := fun hh => h (List.mem_cons_of_mem c hh)
      simp only [List.cons_append, splitN2, if_neg hc, List.append_eq, ih hr]

/-- `Split` never returns an empty piece list. -/
theorem splitOnChar_ne_nil (sep : Char) (l : List Char) : splitOnChar sep l ≠ [] := by
  induction l with
  | nil => simp [splitOnChar]
  | cons c rest ih =>
      by_cases hc : c = sep
      · simp [splitOnChar, hc]
      · rcases hsp : splitOnChar sep rest with _ | ⟨h0, t0⟩
        · exact absurd hsp ih
        · simp [splitOnChar, hc, hsp]

/-- `Split` peels off a separator-free head piece. -/
theorem splitOnChar_append (sep : Char) (t r : List Char) (h : sep ∉ t) :
    splitOnChar sep (t ++ sep :: r) = t :: splitOnChar sep r := by
  induction t with
  | nil => simp [splitOnChar]
  | cons c rest ih =>
      have hc : ¬ c = sep := fun hh => h (hh ▸ List.mem_cons_self c rest)
      have hr : sep ∉ rest := fun hh => h (List.mem_cons_of_mem c hh)
      have hih := ih hr
      rw [List.cons_append]
      rcases hsp : splitOnChar sep (rest ++ sep :: r) with _ | ⟨h0, t0⟩
      · exact absurd hsp (splitOnChar_ne_nil sep _)
      · rw [hsp] at hih
        injection hih with h1 h2
        subst h1; subst h2
        simp [splitOnChar, hc, hsp]

/-! ## Helper lemmas on the base64 codec -/

/-- Decoding inverts the alphabet table on every sextet. -/
theorem sextetVal_sextetChar : ∀ n < 64, sextetVal (sextetChar n) = some n := by
  decide

/-- No alphabet character is the padding character. -/
theorem sextetChar_ne_pad : ∀ n < 64, sextetChar n ≠ '=' := by decide

/-- No character produced by the encoder is a carriage return or newline
(for sextet values 64 and above the encoder table falls through to `/`). -/
theorem sextetChar_no_newline (n : Nat) :
    ¬ (sextetChar n = '\r' ∨ sextetChar n = '\n') := by
  by_cases h : n < 64
  · intro hcontra
    have h1 := sextetVal_sextetChar n h
    have h2 : sextetVal '\r' = none := by decide
    have h3 : sextetVal '\n' = none := by decide
    rcases hcontra with hc | hc
    · rw [hc, h2] at h1; exact Option.noConfusion h1
    · rw [hc, h3] at h1; exact Option.noConfusion h1
  · unfold sextetChar
    split_ifs with h1 h2 h3 h4
    · omega
    · omega
    · omega
    · omega
    · decide

/-- Every character of an encoded string survives the newline
filter. -/
theorem b64Encode_no_newline : ∀ (bytes : List Nat), ∀ c ∈ b64EncodeList bytes,
    ¬ (c = '\r' ∨ c = '\n')
  | [], c, hc => by simp [b64EncodeList] at hc
  | [a], c, hc => by
      simp only [b64EncodeList, List.mem_cons, List.not_mem_nil, or_false] at hc
      rcases hc with rfl | rfl | rfl | rfl
      · exact sextetChar_no_newline _
      · exact sextetChar_no_newline _
      · decide
      · decide
  | [a, b], c, hc => by
      simp only [b64EncodeList, List.mem_cons, List.not_mem_nil, or_false] at hc
      rcases hc with rfl | rfl | rfl | rfl
      · exact sextetChar_no_newline _
      · exact sextetChar_no_newline _
      · exact sextetChar_no_newline _
      · decide
  | a :: b :: d :: rest, c, hc => by
      simp only [b64EncodeList, List.mem_cons] at hc
      rcases hc with rfl | rfl | rfl | rfl | hmem
      · exact sextetChar_no_newline _
      · exact sextetChar_no_newline _
      · exact sextetChar_no_newline _
      · exact sextetChar_no_newline _
      · exact b64Encode_no_newline rest c hmem

/-- Quantum-level round trip: decoding an encoded byte list recovers it. -/
theorem b64DecodeQuanta_encode : ∀ (bytes : List Nat), (∀ b ∈ bytes, b < 256) →
    b64DecodeQuanta (b64EncodeList bytes) = some bytes
  | [], _ => rfl
  | [a], h => by
      have ha : a < 256 := h a (by simp)
      have hv1 := sextetVal_sextetChar (a / 4) (by omega)
      have hv2 := sextetVal_sextetChar (a % 4 * 16) (by omega)
      simp only [b64EncodeList, b64DecodeQuanta, hv1, hv2, and_self, if_true,
        reduceIte, Option.some.injEq, List.cons.injEq, and_true]
      omega
  | [a, b], h => by
      have ha : a < 256 := h a (by simp)
      have hb : b < 256 := h b (by simp)
      have hv1 := sextetVal_sextetChar (a / 4) (by omega)
      have hv2 := sextetVal_sextetChar (a % 4 * 16 + b / 16) (by omega)
      have hv3 := sextetVal_sextetChar (b % 16 * 4) (by omega)
      have hne := sextetChar_ne_pad (b % 16 * 4) (by omega)
      simp only [b64EncodeList, b64DecodeQuanta, hv1, hv2, hv3, if_neg hne,
        reduceIte, Option.some.injEq, List.cons.injEq, and_true]
      constructor
      · omega
      · omega
  | a :: b :: d :: rest, h => by
      have ha : a < 256 := h a (by simp)
      have hb : b < 256 := h b (by simp)
      have hd : d < 256 := h d (by simp)
      have ih := b64DecodeQuanta_encode rest (fun x hx => h x (by simp [hx]))
      have hv1 := sextetVal_sextetChar (a / 4) (by omega)
      have hv2 := sextetVal_sextetChar (a % 4 * 16 + b / 16) (by omega)
      have hv3 := sextetVal_sextetChar (b % 16 * 4 + d / 64) (by omega)
      have hv4 := sextetVal_sextetChar (d % 64) (by omega)
      have hne3 := sextetChar_ne_pad (b % 16 * 4 + d / 64) (by omega)
      have hne4 := sextetChar_ne_pad (d % 64) (by omega)
      simp only [b64EncodeList, b64DecodeQuanta, hv1, hv2, hv3, hv4, ih,
        if_neg hne3, if_neg hne4, Option.some.injEq, List.cons.injEq, and_true]
      refine ⟨by omega, by omega, by omega⟩

/-- Full round trip through the Go `EncodeToString` and `DecodeString`:
the newline filter is the identity on encoder output, and the quanta
decoder inverts the encoder. -/
theorem b64_roundtrip (bytes : List Nat) (h : ∀ b ∈ bytes, b < 256) :
    b64DecodeString (b64EncodeList bytes) = some bytes := by
  unfold b64DecodeString
  have hf : (b64EncodeList bytes).filter (fun c => ¬ (c = '\r' ∨ c = '\n')) =
      b64EncodeList bytes := by
    rw [List.filter_eq_self]
    intro c hc
    simpa using b64Encode_no_newline bytes c hc
  rw [hf]
  exact b64DecodeQuanta_encode bytes h

/-! ## Helper lemmas on the `Data` extractor -/

/-- Media parts and data parts run the identical extraction. -/
theorem Data_eq_extract (p : AiPart) (hk : p.kind = .media ∨ p.kind = .data) :
    Data p = extractData p.contentType p.text := by
  rcases hk with hk | hk <;> simp [Data, hk]

/-- On a well-formed `data:<t>;base64,<payload>` text with a single-token
media type, extraction decodes the payload as base64. -/
theorem extractData_uri_base64_ok (declaredCT t payload : List Char)
    (bytes : List Nat) (hnc : ',' ∉ t) (hns : ';' ∉ t)
    (hdec : b64DecodeString payload = some bytes) :
    extractData declaredCT
      (String.toList "data:" ++ (t ++ (String.toList ";base64," ++ payload))) =
      ⟨t, bytes, none⟩ := by
  have hpre : (String.toList "data:").isPrefixOf
      (String.toList "data:" ++ (t ++ (String.toList ";base64," ++ payload))) = true := by
    rw [List.isPrefixOf_iff_prefix]
    exact List.prefix_append _ _
  have hdrop : (String.toList "data:" ++
      (t ++ (String.toList ";base64," ++ payload))).drop 5 =
      t ++ (String.toList ";base64," ++ payload) :=
    List.drop_left' rfl
  have hassoc : t ++ (String.toList ";base64," ++ payload) =
      (t ++ String.toList ";base64") ++ ',' :: payload := by
    have : String.toList ";base64," = String.toList ";base64" ++ [','] := rfl
    rw [this]
    simp [List.append_assoc]
  have hsplit : splitN2 ',' (t ++ (String.toList ";base64," ++ payload)) =
      [t ++ String.toList ";base64", payload] := by
    rw [hassoc]
    refine splitN2_append ',' _ payload ?_
    intro hmem
    rcases List.mem_append.mp hmem with hmm | hmm
    · exact hnc hmm
    · revert hmm; decide
  have hsoc : splitOnChar ';' (t ++ String.toList ";base64") =
      [t, String.toList "base64"] := by
    have h1 : t ++ String.toList ";base64" = t ++ ';' :: String.toList "base64" := rfl
    have h2 : splitOnChar ';' (String.toList "base64") = [String.toList "base64"] := by
      decide
    rw [h1, splitOnChar_append ';' t _ hns, h2]
  simp only [extractData, hpre, if_true, hdrop, hsplit, hsoc]
  simp only [List.headD_cons, List.drop_succ_cons, List.drop_zero, List.any_cons,
    List.any_nil, Bool.or_false, decide_eq_true_eq]
  have hb : (String.toList "base64" == String.toList "base64") = true := by decide
  simp only [hdec]
  simp

/-- Text without the `data:` scheme is decoded as bare base64, with the
declared content type (defaulted to `application/octet-stream`). -/
theorem extractData_bare (declaredCT text : List Char)
    (hpre : (String.toList "data:").isPrefixOf text = false) :
    extractData declaredCT text =
      match b64DecodeString text with
      | some bytes =>
          ⟨if declaredCT = [] then String.toList "application/octet-stream"
            else declaredCT, bytes, none⟩
      | none => ⟨[], [], some .invalidBase64⟩ := by
  simp only [extractData, hpre, Bool.false_eq_true, if_false]

/-- A `data:` text without a comma is malformed. -/
theorem extractData_no_comma (declaredCT text : List Char)
    (hpre : (String.toList "data:").isPrefixOf text = true)
    (hnc : ',' ∉ text.drop 5) :
    extractData declaredCT text = ⟨[], [], some .malformedDataURI⟩ := by
  simp only [extractData, hpre, if_true, splitN2_not_mem ',' _ hnc]

/-- In the `data:` URI branch the returned content type is always the first
`;`-segment before the comma (empty segment included) on success, and empty
on failure — the `application/octet-stream` default never applies there. -/
theorem extractData_uri_empty_ct (declaredCT text p0 p1 : List Char)
    (hpre : (String.toList "data:").isPrefixOf text = true)
    (hsplit : splitN2 ',' (text.drop 5) = [p0, p1])
    (hempty : (splitOnChar ';' p0).headD [] = []) :
    (extractData declaredCT text).contentType = [] := by
  simp only [extractData, hpre, if_true, hsplit]
  split_ifs with hb
  · rcases hres : b64DecodeString p1 with _ | bs
    · rfl
    · exact hempty
  · exact hempty

/-! ## Helper lemmas on the streaming assembler -/

/-- The frozen parts are emitted in index order. -/
theorem sortByIdx_sorted (l : List (Nat × RespPart)) :
    List.Sorted (fun a b => a.1 ≤ b.1) (sortByIdx l) := by
  haveI : IsTotal (Nat × RespPart) (fun a b => a.1 ≤ b.1) :=
    ⟨fun a b => Nat.le_total a.1 b.1⟩
  haveI : IsTrans (Nat × RespPart) (fun a b => a.1 ≤ b.1) :=
    ⟨fun a b c => Nat.le_trans⟩
  exact List.sorted_insertionSort _ l

/-- Reordering into index order loses no part. -/
theorem sortByIdx_perm (l : List (Nat × RespPart)) :
    List.Perm (sortByIdx l) l :=
  List.perm_insertionSort _ l

/-- A delta whose index holds a text slot appends its fragment to that
existing content of that slot (arrival order). -/
theorem runEvents_delta_append (jsonOk : List Char → Bool) (acc : Accum)
    (idx : Nat) (s frag : List Char) (rest : List StreamEvent)
    (hslot : lookupSlot idx acc.slots = some (.text s)) :
    runEvents jsonOk acc (.deltaText idx frag :: rest) =
      runEvents jsonOk
        ⟨setSlot idx (.text (s ++ frag)) acc.slots, acc.parts, acc.badTool⟩ rest := by
  simp only [runEvents, hslot]

/-- The terminal event finalizes: parts are sorted into index order, and an
undegraded accumulator reports the finish reason of the event with no error. -/
theorem runEvents_message_stop (jsonOk : List Char → Bool) (acc : Accum)
    (fin : FinishReason) (rest : List StreamEvent)
    (hgood : acc.badTool = false) :
    runEvents jsonOk acc (.messageStop fin :: rest) =
      ⟨some ⟨(sortByIdx acc.parts).map (fun e => e.2), fin⟩, none⟩ := by
  simp only [runEvents, hgood, Bool.false_eq_true, if_false]

/-- Freezing a tool slot whose concatenated arguments fail the JSON check
marks the response degraded and continues. -/
theorem runEvents_stop_bad_tool (jsonOk : List Char → Bool) (acc : Accum)
    (idx : Nat) (name args : List Char) (rest : List StreamEvent)
    (hslot : lookupSlot idx acc.slots = some (.tool name args))
    (hbadjson : jsonOk args = false) :
    runEvents jsonOk acc (.stopPart idx :: rest) =
      runEvents jsonOk
        ⟨removeSlot idx acc.slots, (idx, .toolCall name args) :: acc.parts, true⟩
        rest := by
  simp only [runEvents, hslot, hbadjson, Bool.not_false, Bool.or_true]

/-- Once the accumulator is degraded, any response the remaining events
produce has finish reason `other` and surfaces `MalformedToolArguments`. -/
theorem runEvents_degraded (jsonOk : List Char → Bool) :
    ∀ (evs : List StreamEvent) (acc : Accum), acc.badTool = true →
    ∀ r, (runEvents jsonOk acc evs).resp = some r →
      r.finish = .other ∧
        (runEvents jsonOk acc evs).err = some .malformedToolArguments
  | [], _, _, r, hr => by simp [runEvents] at hr
  | .startText idx :: rest, acc, hbad, r, hr => by
      simp only [runEvents] at hr ⊢
      exact runEvents_degraded jsonOk rest
        ⟨(idx, .text []) :: acc.slots, acc.parts, acc.badTool⟩ hbad r hr
  | .startTool idx name :: rest, acc, hbad, r, hr => by
      simp only [runEvents] at hr ⊢
      exact runEvents_degraded jsonOk rest
        ⟨(idx, .tool name []) :: acc.slots, acc.parts, acc.badTool⟩ hbad r hr
  | .deltaText idx frag :: rest, acc, hbad, r, hr => by
      simp only [runEvents] at hr ⊢
      rcases hslot : lookupSlot idx acc.slots with _ | s
      · rw [hslot] at hr; exact Option.noConfusion hr
      · cases s with
        | text s0 =>
            rw [hslot] at hr
            exact runEvents_degraded jsonOk rest
              ⟨setSlot idx (.text (s0 ++ frag)) acc.slots, acc.parts, acc.badTool⟩
              hbad r hr
        | tool n0 a0 => rw [hslot] at hr; exact Option.noConfusion hr
  | .deltaTool idx frag :: rest, acc, hbad, r, hr => by
      simp only [runEvents] at hr ⊢
      rcases hslot : lookupSlot idx acc.slots with _ | s
      · rw [hslot] at hr; exact Option.noConfusion hr
      · cases s with
        | text s0 => rw [hslot] at hr; exact Option.noConfusion hr
        | tool n0 a0 =>
            rw [hslot] at hr
            exact runEvents_degraded jsonOk rest
              ⟨setSlot idx (.tool n0 (a0 ++ frag)) acc.slots, acc.parts, acc.badTool⟩
              hbad r hr
  | .stopPart idx :: rest, acc, hbad, r, hr => by
      simp only [runEvents] at hr ⊢
      rcases hslot : lookupSlot idx acc.slots with _ | s
      · rw [hslot] at hr; exact Option.noConfusion hr
      · cases s with
        | text s0 =>
            rw [hslot] at hr
            exact runEvents_degraded jsonOk rest
              ⟨removeSlot idx acc.slots, (idx, .text s0) :: acc.parts, acc.badTool⟩
              hbad r hr
        | tool n0 a0 =>
            rw [hslot] at hr
            exact runEvents_degraded jsonOk rest
              ⟨removeSlot idx acc.slots, (idx, .toolCall n0 a0) :: acc.parts,
                acc.badTool || ! jsonOk a0⟩
              (by simp [hbad]) r hr
  | .messageStop fin :: rest, acc, hbad, r, hr => by
      simp only [runEvents, hbad, if_true] at hr ⊢
      injection hr with h
      subst h
      simp

/-! ## The claims -/

/-- C1 (counterexample): a media part whose data-URI media-type segment is
empty decodes with content type `""`, not `application/octet-stream` — the
default is applied to the declared `ContentType` field before the URI is
parsed and is then overwritten by the first `;`-segment. -/
theorem c1_counterexample :
    Data ⟨.media, [], String.toList "data:;base64,QQ=="⟩ = ⟨[], [65], none⟩ ∧
    ([] : List Char) ≠ String.toList "application/octet-stream" := by
  constructor
  · decide
  · decide

/-- C1 (amended): for every media or data part whose Text is a data URI
whose media-type segment (before the first `;` in the part before the
comma) is empty, `Data` returns the empty string as the content type; the
`application/octet-stream` default applies only to the declared
`ContentType` field on the bare-payload path, never inside the data-URI
branch. -/
theorem c1_data_uri_empty_mediatype (p : AiPart)
    (hk : p.kind = .media ∨ p.kind = .data)
    (hpre : (String.toList "data:").isPrefixOf p.text = true)
    (p0 p1 : List Char)
    (hsplit : splitN2 ',' (p.text.drop 5) = [p0, p1])
    (hempty : (splitOnChar ';' p0).headD [] = []) :
    (Data p).contentType = [] := by
  rw [Data_eq_extract p hk]
  exact extractData_uri_empty_ct p.contentType p.text p0 p1 hpre hsplit hempty

/-- C1 witness: the amended theorem applied to the concrete part of the
counterexample. -/
theorem c1_witness :
    (Data ⟨.media, [], String.toList "data:;base64,QQ=="⟩).contentType = [] :=
  c1_data_uri_empty_mediatype ⟨.media, [], String.toList "data:;base64,QQ=="⟩
    (Or.inl rfl) (by decide) (String.toList ";base64") (String.toList "QQ==")
    (by decide) (by decide)

/-- C2: a media or data part whose Text starts with `data:` but has no
comma after that prefix fails with `MalformedDataURI` and returns no
content type and no bytes. -/
theorem c2_missing_comma_malformed (p : AiPart)
    (hk : p.kind = .media ∨ p.kind = .data)
    (hpre : (String.toList "data:").isPrefixOf p.text = true)
    (hnc : ',' ∉ p.text.drop 5) :
    Data p = ⟨[], [], some .malformedDataURI⟩ := by
  rw [Data_eq_extract p hk]
  exact extractData_no_comma p.contentType p.text hpre hnc

/-- C2 witness: the theorem applied to a concrete comma-free data URI. -/
theorem c2_witness :
    Data ⟨.data, String.toList "image/png", String.toList "data:nocomma"⟩ =
      ⟨[], [], some .malformedDataURI⟩ :=
  c2_missing_comma_malformed
    ⟨.data, String.toList "image/png", String.toList "data:nocomma"⟩
    (Or.inr rfl) (by decide) (by decide)

/-- C3: a media or data part whose Text is `data:<t>;base64,<payload>` for
a single-token media type `t` (no `,` or `;`, matching the `<type>`
placeholder of the claim) and a payload accepted by standard base64 decodes to
content type `t` and the decoded bytes. -/
theorem c3_data_uri_base64_decodes (p : AiPart) (t payload : List Char)
    (bytes : List Nat)
    (hk : p.kind = .media ∨ p.kind = .data)
    (htext : p.text =
      String.toList "data:" ++ (t ++ (String.toList ";base64," ++ payload)))
    (hnc : ',' ∉ t) (hns : ';' ∉ t)
    (hdec : b64DecodeString payload = some bytes) :
    Data p = ⟨t, bytes, none⟩ := by
  rw [Data_eq_extract p hk, htext]
  exact extractData_uri_base64_ok p.contentType t payload bytes hnc hns hdec

/-- C3 witness: the theorem applied to `data:image/png;base64,aGk=`. -/
theorem c3_witness :
    Data ⟨.media, [], String.toList "data:image/png;base64,aGk="⟩ =
      ⟨String.toList "image/png", [104, 105], none⟩ :=
  c3_data_uri_base64_decodes ⟨.media, [], String.toList "data:image/png;base64,aGk="⟩
    (String.toList "image/png") (String.toList "aGk=") [104, 105]
    (Or.inl rfl) (by decide) (by decide) (by decide) (by decide)

/-- C4: a media or data part whose Text does not start with `data:` is
always treated as bare standard base64: success returns the decoded bytes
with the declared content type (defaulted to `application/octet-stream`
when unset), failure returns `InvalidBase64`. -/
theorem c4_bare_payload_base64 (p : AiPart)
    (hk : p.kind = .media ∨ p.kind = .data)
    (hpre : (String.toList "data:").isPrefixOf p.text = false) :
    (∀ bytes, b64DecodeString p.text = some bytes →
      Data p = ⟨if p.contentType = [] then String.toList "application/octet-stream"
                 else p.contentType, bytes, none⟩) ∧
    (b64DecodeString p.text = none →
      Data p = ⟨[], [], some .invalidBase64⟩) := by
  rw [Data_eq_extract p hk, extractData_bare p.contentType p.text hpre]
  constructor
  · intro bytes hb; rw [hb]
  · intro hb; rw [hb]

/-- C4 witness: the theorem applied to a decodable bare payload with a
declared type, and to an undecodable one. -/
theorem c4_witness :
    Data ⟨.media, String.toList "image/png", String.toList "aGk="⟩ =
      ⟨String.toList "image/png", [104, 105], none⟩ ∧
    Data ⟨.data, [], String.toList "!!"⟩ = ⟨[], [], some .invalidBase64⟩ := by
  constructor
  · exact ((c4_bare_payload_base64
      ⟨.media, String.toList "image/png", String.toList "aGk="⟩
      (Or.inl rfl) (by decide)).1 [104, 105] (by decide)).trans (by decide)
  · exact (c4_bare_payload_base64 ⟨.data, [], String.toList "!!"⟩
      (Or.inr rfl) (by decide)).2 (by decide)

/-- C5 (counterexample): the round trip does not hold for every comma-free
content type: `text/plain;charset=utf-8` contains no comma, yet encoding
non-empty bytes with it and decoding back returns only the first
`;`-segment `text/plain`. -/
theorem c5_counterexample :
    ',' ∉ String.toList "text/plain;charset=utf-8" ∧
    ([104, 105] : List Nat) ≠ [] ∧
    Data ⟨.media, [],
      encodeDataURI (String.toList "text/plain;charset=utf-8") [104, 105]⟩ =
      ⟨String.toList "text/plain", [104, 105], none⟩ ∧
    String.toList "text/plain" ≠ String.toList "text/plain;charset=utf-8" := by
  refine ⟨by decide, by decide, by decide, by decide⟩

/-- C5 (amended): for every non-empty byte sequence and every content type
containing neither a comma nor a semicolon, encoding via the Content Codec
and decoding with `Data` returns the original bytes and content type. -/
theorem c5_codec_roundtrip (p : AiPart) (ct : List Char) (bytes : List Nat)
    (hk : p.kind = .media ∨ p.kind = .data)
    (htext : p.text = encodeDataURI ct bytes)
    (hnc : ',' ∉ ct) (hns : ';' ∉ ct)
    (hbytes : ∀ b ∈ bytes, b < 256) (hne : bytes ≠ []) :
    Data p = ⟨ct, bytes, none⟩ := by
  rw [Data_eq_extract p hk, htext]
  have henc : encodeDataURI ct bytes =
      String.toList "data:" ++
        (ct ++ (String.toList ";base64," ++ b64EncodeList bytes)) := by
    simp [encodeDataURI, List.append_assoc]
  rw [henc]
  exact extractData_uri_base64_ok p.contentType ct (b64EncodeList bytes) bytes
    hnc hns (b64_roundtrip bytes hbytes)

/-- C5 witness: the amended round trip at `image/png` and four PNG magic
bytes. -/
theorem c5_witness :
    Data ⟨.media, [], encodeDataURI (String.toList "image/png") [137, 80, 78, 71]⟩ =
      ⟨String.toList "image/png", [137, 80, 78, 71], none⟩ :=
  c5_codec_roundtrip
    ⟨.media, [], encodeDataURI (String.toList "image/png") [137, 80, 78, 71]⟩
    (String.toList "image/png") [137, 80, 78, 71]
    (Or.inl rfl) rfl (by decide) (by decide) (by decide) (by decide)

/-- C6: translating with a logical model name that is not a key of the
static catalog fails with `UnknownModel` for every request, before any
further translation work; a name that is a key resolves to the (unique)
provider-specific version string of its catalog entry. -/
theorem c6_model_resolution :
    (∀ name req, lookupModel name = none →
      translateRequest name req = .error .unknownModel) ∧
    (∀ name info req, lookupModel name = some info →
      translateRequest name req = .ok ⟨info.versions.headD [], req⟩) ∧
    (∀ e ∈ anthropicModels, e.2.versions.length = 1) := by
  refine ⟨?_, ?_, by decide⟩
  · intro name req h
    simp [translateRequest, resolveModel, h]
  · intro name info req h
    simp [translateRequest, resolveModel, h]

/-- C6 witness: `not-a-real-model` fails with `UnknownModel`;
`claude-sonnet-4` resolves to `claude-sonnet-4-20250514`. -/
theorem c6_witness :
    translateRequest (String.toList "not-a-real-model") [String.toList "hi"] =
      .error .unknownModel ∧
    translateRequest (String.toList "claude-sonnet-4") [String.toList "hi"] =
      .ok ⟨String.toList "claude-sonnet-4-20250514", [String.toList "hi"]⟩ := by
  constructor
  · exact c6_model_resolution.1 _ _ (by decide)
  · exact c6_model_resolution.2.1 (String.toList "claude-sonnet-4")
      ⟨String.toList "Anthropic Claude Sonnet 4", Multimodal,
        [String.toList "claude-sonnet-4-20250514"]⟩
      [String.toList "hi"] (by decide)

/-- C7: after one successful initialization every further initialization
attempt on the same instance fails with an explicit error, and the
lifecycle only ever moves `uninitialized` to `ready`, never back: every
successful initialization starts from `uninitialized` and ends `ready`. -/
theorem c7_init_once :
    (∀ p : AnthropicPlugin, p.state = .ready →
      initPlugin p = .error .alreadyInitialized) ∧
    (∀ p q : AnthropicPlugin, initPlugin p = .ok q →
      p.state = .uninitialized ∧ q.state = .ready) := by
  constructor
  · intro p hp
    simp [initPlugin, hp]
  · intro p q h
    unfold initPlugin at h
    cases hs : p.state with
    | ready => rw [hs] at h; exact absurd h (by simp)
    | uninitialized =>
        rw [hs] at h
        by_cases hkey : p.apiKey = []
        · rw [if_pos hkey] at h; exact absurd h (by simp)
        · rw [if_neg hkey] at h
          injection h with h1
          rw [← h1]
          exact ⟨rfl, rfl⟩

/-- C7 witness: a ready instance refuses re-initialization, and the
concrete first initialization moves `uninitialized` to `ready`. -/
theorem c7_witness :
    initPlugin ⟨.ready, String.toList "sk-ant-test-key"⟩ =
      .error .alreadyInitialized ∧
    ((⟨.uninitialized, String.toList "sk-ant-test-key"⟩ :
        AnthropicPlugin).state = .uninitialized ∧
      (⟨.ready, String.toList "sk-ant-test-key"⟩ :
        AnthropicPlugin).state = .ready) :=
  ⟨c7_init_once.1 ⟨.ready, String.toList "sk-ant-test-key"⟩ rfl,
   c7_init_once.2 ⟨.uninitialized, String.toList "sk-ant-test-key"⟩
     ⟨.ready, String.toList "sk-ant-test-key"⟩ rfl⟩

/-- C8: assembling `[start(0,text), delta(0,"He"), delta(0,"llo"),
stop(0), message-stop(stop)]` yields one part with text `"Hello"` and
finish reason `stop` (for every JSON predicate — no tool part occurs);
in general a delta appends its fragment to the slot of its index in arrival
order, and finalization emits the frozen parts in index order (sorted by
index, as a permutation of the accumulated parts). -/
theorem c8_streaming_assembly :
    (∀ jsonOk : List Char → Bool,
      assemble jsonOk
        [.startText 0, .deltaText 0 (String.toList "He"),
         .deltaText 0 (String.toList "llo"), .stopPart 0, .messageStop .stop] =
        ⟨some ⟨[.text (String.toList "Hello")], .stop⟩, none⟩) ∧
    (∀ (jsonOk : List Char → Bool) (acc : Accum) (idx : Nat)
        (s frag : List Char) (rest : List StreamEvent),
      lookupSlot idx acc.slots = some (.text s) →
      runEvents jsonOk acc (.deltaText idx frag :: rest) =
        runEvents jsonOk ⟨setSlot idx (.text (s ++ frag)) acc.slots, acc.parts,
          acc.badTool⟩ rest) ∧
    (∀ (jsonOk : List Char → Bool) (acc : Accum) (fin : FinishReason)
        (rest : List StreamEvent), acc.badTool = false →
      runEvents jsonOk acc (.messageStop fin :: rest) =
        ⟨some ⟨(sortByIdx acc.parts).map (fun e => e.2), fin⟩, none⟩) ∧
    (∀ l : List (Nat × RespPart),
      List.Sorted (fun a b => a.1 ≤ b.1) (sortByIdx l) ∧
        List.Perm (sortByIdx l) l) := by
  refine ⟨?_, runEvents_delta_append, runEvents_message_stop,
    fun l => ⟨sortByIdx_sorted l, sortByIdx_perm l⟩⟩
  intro jsonOk
  rfl

/-- C8 witness: the delta-append equation and the finalization equation at
concrete accumulators. -/
theorem c8_witness :
    runEvents (fun _ => true) ⟨[(0, Slot.text (String.toList "He"))], [], false⟩
        [.deltaText 0 (String.toList "llo"), .stopPart 0, .messageStop .stop] =
      runEvents (fun _ => true)
        ⟨setSlot 0 (.text (String.toList "He" ++ String.toList "llo"))
            [(0, Slot.text (String.toList "He"))], [], false⟩
        [.stopPart 0, .messageStop .stop] ∧
    runEvents (fun _ => true)
        ⟨[], [(0, RespPart.text (String.toList "Hello"))], false⟩
        [.messageStop .stop] =
      ⟨some ⟨(sortByIdx [(0, RespPart.text (String.toList "Hello"))]).map
          (fun e => e.2), .stop⟩, none⟩ :=
  ⟨c8_streaming_assembly.2.1 (fun _ => true)
      ⟨[(0, Slot.text (String.toList "He"))], [], false⟩ 0
      (String.toList "He") (String.toList "llo") [.stopPart 0, .messageStop .stop]
      rfl,
   c8_streaming_assembly.2.2.1 (fun _ => true)
      ⟨[], [(0, RespPart.text (String.toList "Hello"))], false⟩ .stop [] rfl⟩

/-- C9: freezing a tool part whose concatenated argument fragments fail
the JSON validity check (the abstract predicate standing for Go
`json.Unmarshal`) marks the assembly degraded, and any response produced
from a degraded accumulator has finish reason `other` — never `tool_call`
— while surfacing `MalformedToolArguments`. -/
theorem c9_malformed_tool_args :
    (∀ (jsonOk : List Char → Bool) (acc : Accum) (idx : Nat)
        (name args : List Char) (rest : List StreamEvent),
      lookupSlot idx acc.slots = some (.tool name args) →
      jsonOk args = false →
      runEvents jsonOk acc (.stopPart idx :: rest) =
        runEvents jsonOk ⟨removeSlot idx acc.slots,
          (idx, .toolCall name args) :: acc.parts, true⟩ rest) ∧
    (∀ (jsonOk : List Char → Bool) (evs : List StreamEvent) (acc : Accum),
      acc.badTool = true → ∀ r, (runEvents jsonOk acc evs).resp = some r →
        r.finish = .other ∧ r.finish ≠ .toolCall ∧
          (runEvents jsonOk acc evs).err = some .malformedToolArguments) := by
  refine ⟨runEvents_stop_bad_tool, ?_⟩
  intro jsonOk evs acc hbad r hr
  obtain ⟨h1, h2⟩ := runEvents_degraded jsonOk evs acc hbad r hr
  refine ⟨h1, ?_, h2⟩
  rw [h1]
  decide

/-- C9 witness: with the concrete JSON syntax checker, stopping a tool
part whose arguments are a truncated JSON object degrades the assembly, and the
degraded accumulator finalizes with finish `other` and the
`MalformedToolArguments` error. -/
theorem c9_witness :
    jsonSyntaxOk (String.toList "\x7b\"a\":1") = false ∧
    runEvents jsonSyntaxOk
        ⟨[(0, Slot.tool (String.toList "f") (String.toList "\x7b\"a\":1"))],
          [], false⟩
        [.stopPart 0, .messageStop .toolCall] =
      runEvents jsonSyntaxOk
        ⟨removeSlot 0
            [(0, Slot.tool (String.toList "f") (String.toList "\x7b\"a\":1"))],
          [(0, RespPart.toolCall (String.toList "f")
            (String.toList "\x7b\"a\":1"))], true⟩
        [.messageStop .toolCall] ∧
    ((⟨[RespPart.toolCall (String.toList "f") (String.toList "\x7b\"a\":1")],
        .other⟩ : AsmResponse).finish = .other ∧
      (⟨[RespPart.toolCall (String.toList "f") (String.toList "\x7b\"a\":1")],
        .other⟩ : AsmResponse).finish ≠ .toolCall ∧
      (runEvents jsonSyntaxOk
          ⟨[], [(0, RespPart.toolCall (String.toList "f")
            (String.toList "\x7b\"a\":1"))], true⟩
          [.messageStop .toolCall]).err = some .malformedToolArguments) :=
  ⟨by decide,
   c9_malformed_tool_args.1 jsonSyntaxOk
     ⟨[(0, Slot.tool (String.toList "f") (String.toList "\x7b\"a\":1"))],
       [], false⟩
     0 (String.toList "f") (String.toList "\x7b\"a\":1")
     [.messageStop .toolCall] rfl (by decide),
   c9_malformed_tool_args.2 jsonSyntaxOk [.messageStop .toolCall]
     ⟨[], [(0, RespPart.toolCall (String.toList "f")
       (String.toList "\x7b\"a\":1"))], true⟩
     rfl
     ⟨[RespPart.toolCall (String.toList "f") (String.toList "\x7b\"a\":1")],
       .other⟩
     (by decide)⟩

/-- C10: a part that is neither a media part nor a data part always fails
with the `unsupported part type` error, returning an empty content type
and no bytes. -/
theorem c10_unsupported_part (p : AiPart)
    (hm : p.kind ≠ .media) (hd : p.kind ≠ .data) :
    Data p = ⟨[], [], some .unsupportedPartType⟩ := by
  simp [Data, hm, hd]

/-- C10 witness: the theorem applied to a text part and a tool-request
part. -/
theorem c10_witness :
    Data ⟨.text, [], String.toList "hello"⟩ =
      ⟨[], [], some .unsupportedPartType⟩ ∧
    Data ⟨.toolRequest, String.toList "x", []⟩ =
      ⟨[], [], some .unsupportedPartType⟩ :=
  ⟨c10_unsupported_part ⟨.text, [], String.toList "hello"⟩ (by decide) (by decide),
   c10_unsupported_part ⟨.toolRequest, String.toList "x", []⟩
     (by decide) (by decide)⟩
